import Mathlib

/-!
Shallow embedding of the game-history tracker of
`src/Tutorial_tic-tac-toe/tic-tac-toe/tic-tac-toe.js` and of the task
reducer of `src/3. Managing State/taskReducers.js`, with theorems about
the embedded operations.
-/

namespace ReactAToZ

/-- A player's mark: the strings `"X"` and `"O"` of the source. -/
inductive Mark where
  | X : Mark
  | O : Mark
deriving DecidableEq, Repr

/-- One cell of the board: `null` or a mark. -/
abbrev Cell := Option Mark

/-- The `squares` array: a 9-cell board snapshot. -/
abbrev Board := Fin 9 → Cell

/-- The initial board `Array(9).fill(null)`. -/
def emptyBoard : Board := fun _ => none

/-- The copy-then-assign idiom `nextSquares = squares.slice(); nextSquares[i] = v`. -/
def setCell (squares : Board) (i : Fin 9) (v : Cell) : Board :=
  fun j => if j = i then v else squares j

/-- The `lines` array of `calculateWinner`: 3 rows, 3 columns, 2 diagonals. -/
def lines : List (Fin 9 × Fin 9 × Fin 9) :=
  [(0, 1, 2), (3, 4, 5), (6, 7, 8), (0, 3, 6), (1, 4, 7), (2, 5, 8), (0, 4, 8), (2, 4, 6)]

/-- The loop guard of `calculateWinner`:
`squares[a] && squares[a] === squares[b] && squares[b] === squares[c]`. -/
def lineWins (squares : Board) (l : Fin 9 × Fin 9 × Fin 9) : Bool :=
  (squares l.1).isSome && (squares l.1 == squares l.2.1) && (squares l.2.1 == squares l.2.2)

/-- The `for` loop of `calculateWinner` over the remaining lines: returns
`squares[a]` at the first line whose guard holds, `null` when none does. -/
def winnerLoop (squares : Board) : List (Fin 9 × Fin 9 × Fin 9) → Option Mark
  | [] => none
  | l :: ls => if lineWins squares l then squares l.1 else winnerLoop squares ls

/-- `calculateWinner(squares)` of the source. -/
def calculateWinner (squares : Board) : Option Mark :=
  winnerLoop squares lines

/-- The state the `Game` component owns: the `history` list of board
snapshots and the `currentMove` cursor. -/
structure GameState where
  history : List Board
  currentMove : Nat

/-- `useState([Array(9).fill(null)])` and `useState(0)`. -/
def initialGameState : GameState := ⟨[emptyBoard], 0⟩

/-- `const xIsNext = currentMove % 2 === 0`, derived from the cursor. -/
def xIsNext (s : GameState) : Bool := s.currentMove % 2 == 0

/-- `const currentSquares = history[currentMove]`. -/
def currentSquares (s : GameState) : Board := s.history.getD s.currentMove emptyBoard

/-- `Board`'s `handleClick(i)`: `none` when the early return fires (occupied
cell or existing winner, so `onPlay` is not invoked), otherwise the board
passed to `onPlay`. -/
def handleClick (xIsNext : Bool) (squares : Board) (i : Fin 9) : Option Board :=
  if (squares i).isSome || (calculateWinner squares).isSome then none
  else some (setCell squares i (some (if xIsNext then Mark.X else Mark.O)))

/-- `Game`'s `handlePlay(nextSquares)`:
`nextHistory = [...history.slice(0, currentMove + 1), nextSquares]`,
then `setHistory(nextHistory)` and `setCurrentMove(nextHistory.length - 1)`. -/
def handlePlay (s : GameState) (nextSquares : Board) : GameState :=
  let nextHistory := s.history.take (s.currentMove + 1) ++ [nextSquares]
  ⟨nextHistory, nextHistory.length - 1⟩

/-- `Game`'s `jumpTo(nextMove)`: `setCurrentMove(nextMove)`, nothing else. -/
def jumpTo (s : GameState) (nextMove : Nat) : GameState :=
  ⟨s.history, nextMove⟩

/-- A click on square `i` as the `Game` component wires it up: `handleClick`
with the props `Game` passes down, with `onPlay = handlePlay` when the move
is accepted and no state change otherwise. -/
def gameClick (s : GameState) (i : Fin 9) : GameState :=
  match handleClick (xIsNext s) (currentSquares s) i with
  | none => s
  | some nextSquares => handlePlay s nextSquares

/-- The next player derived from the cursor: `currentMove % 2 === 0 ? "X" : "O"`
(the composition of `xIsNext` with the ternary in `handleClick`). -/
def nextPlayer (c : Nat) : Mark := if c % 2 == 0 then Mark.X else Mark.O

/-- The `description` computed for entry `move` of the `moves` list. -/
def moveDescription (move : Nat) : String :=
  if move > 0 then "Go to Move #" ++ toString move else "Go to Game Start"

/-- The `moves` list `history.map((squares, move) => ...)` as the pairs
(index, label) it exposes. -/
def movesList (history : List Board) : List (Nat × String) :=
  (List.range history.length).map fun move => (move, moveDescription move)

/-- Line `l` is filled with mark `m`: all three of its cells hold `m`. -/
def LineFilledWith (squares : Board) (l : Fin 9 × Fin 9 × Fin 9) (m : Mark) : Prop :=
  squares l.1 = some m ∧ squares l.2.1 = some m ∧ squares l.2.2 = some m

/-- `b2` extends `b1` by exactly one move: exactly one cell differs, and in
that cell an empty value becomes a mark. -/
def OneMoveApart (b1 b2 : Board) : Prop :=
  ∃ i m, b1 i = none ∧ b2 i = some m ∧ ∀ j, j ≠ i → b2 j = b1 j

/-- Boards reachable from the empty board by alternating legal moves: each
move fills one empty cell with the mark derived from the move count, and no
move is made once `calculateWinner` reports a winner. -/
inductive ReachableBoard : Board → Nat → Prop where
  | start : ReachableBoard emptyBoard 0
  | move (b : Board) (n : Nat) (i : Fin 9) :
      ReachableBoard b n → b i = none → calculateWinner b = none →
      ReachableBoard (setCell b i (some (nextPlayer n))) (n + 1)

/-- Game states reachable from the initial state by cell clicks and in-range
jumps. -/
inductive GameReachable : GameState → Prop where
  | start : GameReachable initialGameState
  | click (s : GameState) (i : Fin 9) :
      GameReachable s → GameReachable (gameClick s i)
  | jump (s : GameState) (k : Nat) :
      GameReachable s → k < s.history.length → GameReachable (jumpTo s k)

/-- The strengthened history invariant: the cursor is in range and
consecutive history entries are one move apart. -/
def HistoryInv (s : GameState) : Prop :=
  s.currentMove < s.history.length ∧ List.Chain' OneMoveApart s.history

/-- A board on which mark `X` already owns the top row (cells 0, 1, 2). -/
def wonBoard : Board :=
  setCell (setCell (setCell emptyBoard 0 (some Mark.X)) 1 (some Mark.X)) 2 (some Mark.X)

/-- The board after the single legal opening move at cell 0. -/
def boardAfterOneMove : Board := setCell emptyBoard 0 (some (nextPlayer 0))

/-- A task of `taskReducers.js`: `{id, text, done}`. -/
structure Task where
  id : Nat
  text : String
  done : Bool
deriving DecidableEq, Repr

/-- An action dispatched to `taskReducers`: its `type` string and the payload
fields the cases read. -/
structure Action where
  type : String
  id : Nat
  text : String
  task : Task
deriving DecidableEq, Repr

/-- The observable outcome of a `taskReducers` call: a returned task list,
a thrown error, or the implicit `undefined` when no case matches. -/
inductive ReducerResult where
  | ok (tasks : List Task)
  | thrown (msg : String)
  | undef
deriving DecidableEq, Repr

/-- `taskReducers(tasks, action)`: the `switch` on `action.type` whose four
case labels are `"add"`, `"remove"`, `"edit"` and the literal `"default"`
(there is no `default:` clause, so any other type falls through and the
function returns `undefined`). -/
def taskReducers (tasks : List Task) (action : Action) : ReducerResult :=
  if action.type = "add" then
    ReducerResult.ok (tasks ++ [⟨action.id, action.text, false⟩])
  else if action.type = "remove" then
    ReducerResult.ok (tasks.filter fun task => task.id != action.id)
  else if action.type = "edit" then
    ReducerResult.ok (tasks.map fun t => if t.id = action.task.id then action.task else t)
  else if action.type = "default" then
    ReducerResult.thrown ("Unknown action: " ++ action.type)
  else
    ReducerResult.undef

/-- An action whose type matches none of the four case labels. -/
def unknownAction : Action := ⟨"mystery", 0, "", ⟨0, "", false⟩⟩

/-! ## Theorems -/

/-- Claim C5: the derived next player is `X` exactly when the cursor is even
and `O` exactly when it is odd, so it alternates strictly (0 ↦ X, 1 ↦ O,
2 ↦ X, …); it is computed from the cursor (`xIsNext` agrees with it on every
state), never stored separately. -/
theorem nextPlayer_parity (c : Nat) :
    (nextPlayer c = Mark.X ↔ c % 2 = 0) ∧
    (nextPlayer c = Mark.O ↔ c % 2 = 1) ∧
    nextPlayer 0 = Mark.X ∧ nextPlayer 1 = Mark.O ∧ nextPlayer 2 = Mark.X ∧
    nextPlayer (c + 1) ≠ nextPlayer c ∧
    ∀ h : List Board, xIsNext ⟨h, c⟩ = (nextPlayer c == Mark.X) := by
  rcases Nat.mod_two_eq_zero_or_one c with h | h <;>
    simp [nextPlayer, xIsNext, h, Nat.succ_mod_two_eq_zero_iff,
      Nat.succ_mod_two_eq_one_iff]

/-- Claim C7: an in-range `jumpTo` changes only the cursor; the history list
(and with it every stored snapshot) is exactly the same afterwards. -/
theorem jumpTo_changes_only_cursor (s : GameState) (k : Nat)
    (hk : k < s.history.length) :
    (jumpTo s k).history = s.history ∧ (jumpTo s k).currentMove = k :=
  ⟨rfl, rfl⟩

/-- Witness for claim C7 at the initial state and index 0. -/
theorem jumpTo_changes_only_cursor_witness :
    0 < initialGameState.history.length ∧
    (jumpTo initialGameState 0).history = initialGameState.history ∧
    (jumpTo initialGameState 0).currentMove = 0 :=
  ⟨by decide, jumpTo_changes_only_cursor initialGameState 0 (by decide)⟩

/-- Claim C2 fails on the code: `jumpTo` performs no range check, so an
out-of-range index (5 against a one-entry history) is stored as the cursor
and no error is raised. -/
theorem jumpTo_counterexample :
    jumpTo initialGameState 5 = ⟨[emptyBoard], 5⟩ ∧
    ¬ 5 < (jumpTo initialGameState 5).history.length :=
  ⟨rfl, by decide⟩

/-- Claim C2 amended: for every out-of-range index, `jumpTo` still just sets
the cursor to that index — it leaves the history untouched, raises no error
and leaves the cursor out of range. -/
theorem jumpTo_out_of_range_sets_cursor (s : GameState) (k : Nat)
    (hk : ¬ k < s.history.length) :
    (jumpTo s k).currentMove = k ∧ (jumpTo s k).history = s.history ∧
    ¬ (jumpTo s k).currentMove < (jumpTo s k).history.length :=
  ⟨rfl, rfl, hk⟩

/-- Witness for the amended claim C2 at the initial state and index 5. -/
theorem jumpTo_out_of_range_sets_cursor_witness :
    ¬ 5 < initialGameState.history.length ∧
    (jumpTo initialGameState 5).currentMove = 5 :=
  ⟨by decide, (jumpTo_out_of_range_sets_cursor initialGameState 5 (by decide)).1⟩

/-- Claim C9 fails on the code: the label of index 0 is the string
"Go to Game Start", not "Go to game start". -/
theorem movesList_labels_counterexample :
    (movesList [emptyBoard]).map Prod.snd = ["Go to Game Start"] ∧
    ¬ (movesList [emptyBoard]).map Prod.snd = ["Go to game start"] := by
  constructor <;> decide

/-- Claim C9 amended: the exposed move-descriptor list has exactly one entry
per history entry, in history order; the label for index 0 is
"Go to Game Start" and the label for every index N > 0 is "Go to Move #N". -/
theorem movesList_spec (history : List Board) :
    (movesList history).length = history.length ∧
    ∀ k : Fin (movesList history).length,
      ((movesList history).get k).1 = k.1 ∧
      ((movesList history).get k).2 =
        if k.1 > 0 then "Go to Move #" ++ toString k.1 else "Go to Game Start" := by
  refine ⟨by simp [movesList], fun k => ?_⟩
  simp [movesList, moveDescription, List.get_eq_getElem]

/-- Claim C1: with the cursor `c` in range, `handlePlay` replaces the suffix
of the history after index `c` with the single new board: the new length is
`c + 2`, the first `c + 1` entries are unchanged, the last entry is the new
board, and the cursor moves to `c + 1`. -/
theorem handlePlay_truncates_then_appends (h : List Board) (c : Nat) (b : Board)
    (hc : c < h.length) :
    (handlePlay ⟨h, c⟩ b).history.length = c + 2 ∧
    (handlePlay ⟨h, c⟩ b).history.take (c + 1) = h.take (c + 1) ∧
    (handlePlay ⟨h, c⟩ b).history.getLast? = some b ∧
    (handlePlay ⟨h, c⟩ b).currentMove = c + 1 := by
  have hlen : (h.take (c + 1)).length = c + 1 := by
    rw [List.length_take]
    omega
  refine ⟨?_, ?_, ?_, ?_⟩
  · simp [handlePlay, hlen]
  · show (h.take (c + 1) ++ [b]).take (c + 1) = h.take (c + 1)
    rw [List.take_append_of_le_length (le_of_eq hlen.symm), List.take_take]
    simp
  · show (h.take (c + 1) ++ [b]).getLast? = some b
    simp
  · simp [handlePlay, hlen]

/-- Witness for claim C1 at the one-entry initial history, cursor 0. -/
theorem handlePlay_truncates_then_appends_witness :
    0 < ([emptyBoard] : List Board).length ∧
    (handlePlay ⟨[emptyBoard], 0⟩ boardAfterOneMove).history.length = 2 ∧
    (handlePlay ⟨[emptyBoard], 0⟩ boardAfterOneMove).currentMove = 1 :=
  ⟨by decide,
   (handlePlay_truncates_then_appends [emptyBoard] 0 boardAfterOneMove (by decide)).1,
   (handlePlay_truncates_then_appends [emptyBoard] 0 boardAfterOneMove (by decide)).2.2.2⟩

/-- Claim C6: when the clicked cell is occupied or the current board already
has a winner, the click is a silent no-op: `handleClick` returns `none` (so
`onPlay` is never invoked) and the game state — history and cursor — is left
unchanged. -/
theorem click_rejected_is_no_op (s : GameState) (i : Fin 9)
    (h : currentSquares s i ≠ none ∨ calculateWinner (currentSquares s) ≠ none) :
    handleClick (xIsNext s) (currentSquares s) i = none ∧ gameClick s i = s := by
  have hcond : ((currentSquares s i).isSome || (calculateWinner (currentSquares s)).isSome) = true := by
    rcases h with h | h <;> simp [Option.isSome_iff_ne_none, h]
  have hnone : handleClick (xIsNext s) (currentSquares s) i = none := by
    simp only [handleClick, hcond, if_true]
  exact ⟨hnone, by simp [gameClick, hnone]⟩

/-- Witness for claim C6: on a board already won by `X` (top row), clicking
the empty cell 4 changes nothing. -/
theorem click_rejected_is_no_op_witness :
    calculateWinner (currentSquares ⟨[wonBoard], 0⟩) ≠ none ∧
    gameClick ⟨[wonBoard], 0⟩ 4 = ⟨[wonBoard], 0⟩ :=
  ⟨by decide, (click_rejected_is_no_op ⟨[wonBoard], 0⟩ 4 (Or.inr (by decide))).2⟩

/-- Claim C10: an action whose type is none of "add", "remove", "edit",
"default" makes `taskReducers` fall through the switch and return
`undefined` (no task list and no raised error); the 'Unknown action' error
is thrown only for the literal type "default", because the error branch is a
case label rather than a switch default. -/
theorem taskReducers_fallthrough (tasks : List Task) (action : Action)
    (h : action.type ∉ (["add", "remove", "edit", "default"] : List String)) :
    taskReducers tasks action = ReducerResult.undef ∧
    ∀ tasks2 : List Task, ∀ action2 : Action, ∀ msg : String,
      taskReducers tasks2 action2 = ReducerResult.thrown msg → action2.type = "default" := by
  simp only [List.mem_cons, List.mem_singleton, not_or] at h
  obtain ⟨h1, h2, h3, h4⟩ := h
  refine ⟨by simp [taskReducers, h1, h2, h3, h4], ?_⟩
  intro tasks2 action2 msg hmsg
  by_cases g1 : action2.type = "add"
  · simp [taskReducers, g1] at hmsg
  by_cases g2 : action2.type = "remove"
  · simp [taskReducers, g1, g2] at hmsg
  by_cases g3 : action2.type = "edit"
  · simp [taskReducers, g1, g2, g3] at hmsg
  by_cases g4 : action2.type = "default"
  · exact g4
  · simp [taskReducers, g1, g2, g3, g4] at hmsg

/-- Witness for claim C10: the action type "mystery" matches no case and the
call returns `undefined`. -/
theorem taskReducers_fallthrough_witness :
    unknownAction.type ∉ (["add", "remove", "edit", "default"] : List String) ∧
    taskReducers [] unknownAction = ReducerResult.undef :=
  ⟨by decide, (taskReducers_fallthrough [] unknownAction (by decide)).1⟩

theorem setCell_at (b : Board) (i : Fin 9) (v : Cell) : setCell b i v i = v := by
  simp [setCell]

theorem setCell_elsewhere (b : Board) (i : Fin 9) (v : Cell) (j : Fin 9) (h : j ≠ i) :
    setCell b i v j = b j := by
  simp [setCell, h]

theorem lineWins_iff_filled (squares : Board) (l : Fin 9 × Fin 9 × Fin 9) :
    lineWins squares l = true ↔ ∃ m, LineFilledWith squares l m := by
  simp only [lineWins, LineFilledWith, Bool.and_eq_true, beq_iff_eq,
    Option.isSome_iff_exists]
  constructor
  · rintro ⟨⟨⟨m, hm⟩, hab⟩, hbc⟩
    exact ⟨m, hm, by rw [← hab, hm], by rw [← hbc, ← hab, hm]⟩
  · rintro ⟨m, h1, h2, h3⟩
    exact ⟨⟨⟨m, h1⟩, by rw [h1, h2]⟩, by rw [h2, h3]⟩

theorem lineWins_head (squares : Board) (l : Fin 9 × Fin 9 × Fin 9) (m : Mark)
    (hw : lineWins squares l = true) (hm : squares l.1 = some m) :
    LineFilledWith squares l m := by
  obtain ⟨m2, h1, h2, h3⟩ := (lineWins_iff_filled squares l).mp hw
  have hmm : m2 = m := by
    rw [h1] at hm
    exact Option.some_inj.mp hm
  subst hmm
  exact ⟨h1, h2, h3⟩

theorem filled_lineWins (squares : Board) (l : Fin 9 × Fin 9 × Fin 9) (m : Mark)
    (h : LineFilledWith squares l m) :
    lineWins squares l = true ∧ squares l.1 = some m :=
  ⟨(lineWins_iff_filled squares l).mpr ⟨m, h⟩, h.1⟩

theorem winnerLoop_eq_none_iff (squares : Board) (ls : List (Fin 9 × Fin 9 × Fin 9)) :
    winnerLoop squares ls = none ↔ ∀ l ∈ ls, lineWins squares l = false := by
  induction ls with
  | nil => simp [winnerLoop]
  | cons a ls ih =>
    by_cases h : lineWins squares a = true
    · rw [winnerLoop, if_pos h]
      constructor
      · intro hn
        exfalso
        have hs : (squares a.1).isSome = true := by
          simp only [lineWins, Bool.and_eq_true] at h
          exact h.1.1
        rw [hn] at hs
        cases hs
      · intro hall
        have := hall a (List.mem_cons_self a ls)
        rw [h] at this
        cases this
    · have hfalse : lineWins squares a = false := by simpa using h
      rw [winnerLoop, if_neg h, ih]
      constructor
      · intro hall l hl
        rcases List.mem_cons.mp hl with rfl | hl2
        · exact hfalse
        · exact hall l hl2
      · intro hall l hl
        exact hall l (List.mem_cons_of_mem a hl)

theorem winnerLoop_eq_some_iff (squares : Board) (ls : List (Fin 9 × Fin 9 × Fin 9))
    (m : Mark) :
    winnerLoop squares ls = some m ↔
      ∃ ls1 l ls2, ls = ls1 ++ l :: ls2 ∧
        (∀ l2 ∈ ls1, lineWins squares l2 = false) ∧
        lineWins squares l = true ∧ squares l.1 = some m := by
  induction ls with
  | nil =>
    simp only [winnerLoop]
    constructor
    · intro h
      cases h
    · rintro ⟨ls1, l, ls2, heq, -, -, -⟩
      exact absurd heq (by simp)
  | cons a ls ih =>
    by_cases h : lineWins squares a = true
    · rw [winnerLoop, if_pos h]
      constructor
      · intro hm
        exact ⟨[], a, ls, rfl, by simp, h, hm⟩
      · rintro ⟨ls1, l, ls2, heq, hfail, hwin, hval⟩
        cases ls1 with
        | nil =>
          simp only [List.nil_append, List.cons.injEq] at heq
          obtain ⟨rfl, rfl⟩ := heq
          exact hval
        | cons x xs =>
          simp only [List.cons_append, List.cons.injEq] at heq
          obtain ⟨rfl, -⟩ := heq
          have := hfail a (List.mem_cons_self a xs)
          rw [h] at this
          cases this
    · have hfalse : lineWins squares a = false := by simpa using h
      rw [winnerLoop, if_neg h, ih]
      constructor
      · rintro ⟨ls1, l, ls2, rfl, hfail, hwin, hval⟩
        refine ⟨a :: ls1, l, ls2, rfl, ?_, hwin, hval⟩
        intro l2 hl2
        rcases List.mem_cons.mp hl2 with rfl | hl2
        · exact hfalse
        · exact hfail l2 hl2
      · rintro ⟨ls1, l, ls2, heq, hfail, hwin, hval⟩
        cases ls1 with
        | nil =>
          simp only [List.nil_append, List.cons.injEq] at heq
          obtain ⟨rfl, -⟩ := heq
          rw [hwin] at hfalse
          cases hfalse
        | cons x xs =>
          simp only [List.cons_append, List.cons.injEq] at heq
          obtain ⟨rfl, rfl⟩ := heq
          refine ⟨xs, l, ls2, rfl, ?_, hwin, hval⟩
          intro l2 hl2
          exact hfail l2 (List.mem_cons_of_mem a hl2)

/-- Claim C3: `calculateWinner` returns `null` exactly when no line of the 8
(3 rows, 3 columns, 2 diagonals) has all three cells equal and non-empty; it
returns a mark `m` exactly when some line is filled with `m` and every line
before it in the order of the `lines` array (rows, columns, diagonals) is
not filled. -/
theorem calculateWinner_first_filled_line (squares : Board) :
    (calculateWinner squares = none ↔
      ∀ l ∈ lines, ∀ m, ¬ LineFilledWith squares l m) ∧
    (∀ m : Mark, calculateWinner squares = some m ↔
      ∃ ls1 l ls2, lines = ls1 ++ l :: ls2 ∧
        (∀ l2 ∈ ls1, ∀ m2, ¬ LineFilledWith squares l2 m2) ∧
        LineFilledWith squares l m) := by
  have hline : ∀ l, lineWins squares l = false ↔ ∀ m, ¬ LineFilledWith squares l m := by
    intro l
    rw [← Bool.not_eq_true, lineWins_iff_filled, not_exists]
  constructor
  · rw [calculateWinner, winnerLoop_eq_none_iff]
    constructor
    · intro hall l hl
      exact (hline l).mp (hall l hl)
    · intro hall l hl
      exact (hline l).mpr (hall l hl)
  · intro m
    rw [calculateWinner, winnerLoop_eq_some_iff]
    constructor
    · rintro ⟨ls1, l, ls2, heq, hfail, hwin, hval⟩
      exact ⟨ls1, l, ls2, heq, fun l2 h2 => (hline l2).mp (hfail l2 h2),
        lineWins_head squares l m hwin hval⟩
    · rintro ⟨ls1, l, ls2, heq, hfail, hfill⟩
      obtain ⟨hw, hv⟩ := filled_lineWins squares l m hfill
      exact ⟨ls1, l, ls2, heq, fun l2 h2 => (hline l2).mpr (hfail l2 h2), hw, hv⟩

theorem winnerLoop_some_mem (squares : Board) (ls : List (Fin 9 × Fin 9 × Fin 9))
    (m : Mark) (h : winnerLoop squares ls = some m) :
    ∃ l ∈ ls, lineWins squares l = true ∧ squares l.1 = some m := by
  obtain ⟨ls1, l, ls2, heq, -, hwin, hval⟩ := (winnerLoop_eq_some_iff squares ls m).mp h
  refine ⟨l, ?_, hwin, hval⟩
  rw [heq]
  simp

theorem reachable_winning_lines_agree (b : Board) (n : Nat) (hb : ReachableBoard b n) :
    ∀ l ∈ lines, ∀ l2 ∈ lines, lineWins b l = true → lineWins b l2 = true →
      b l.1 = b l2.1 := by
  induction hb with
  | start =>
    intro l _ l2 _ hw _
    exfalso
    simp [lineWins, emptyBoard] at hw
  | move b n i hb hempty hnowin ih =>
    have hall : ∀ l ∈ lines, lineWins b l = false :=
      (winnerLoop_eq_none_iff b lines).mp hnowin
    have key : ∀ l ∈ lines, lineWins (setCell b i (some (nextPlayer n))) l = true →
        setCell b i (some (nextPlayer n)) l.1 = some (nextPlayer n) := by
      intro l hl hw
      by_cases hi : l.1 = i ∨ l.2.1 = i ∨ l.2.2 = i
      · obtain ⟨m, h1, h2, h3⟩ := (lineWins_iff_filled _ l).mp hw
        rcases hi with hi | hi | hi
        · rw [hi]
          exact setCell_at b i _
        · have hmn : some m = some (nextPlayer n) := by
            rw [← h2, hi]
            exact setCell_at b i _
          rw [h1, hmn]
        · have hmn : some m = some (nextPlayer n) := by
            rw [← h3, hi]
            exact setCell_at b i _
          rw [h1, hmn]
      · push_neg at hi
        obtain ⟨hi1, hi2, hi3⟩ := hi
        have hsame : lineWins (setCell b i (some (nextPlayer n))) l = lineWins b l := by
          simp only [lineWins, setCell_elsewhere b i _ _ hi1,
            setCell_elsewhere b i _ _ hi2, setCell_elsewhere b i _ _ hi3]
        rw [hsame, hall l hl] at hw
        cases hw
    intro l hl l2 hl2 hw hw2
    rw [key l hl hw, key l2 hl2 hw2]

/-- Claim C4: on every board reachable from the empty board by alternating
legal moves (no move after a completed line), the winner check is
independent of the order of the 8 lines: running the loop over any
permutation of the line list returns exactly `calculateWinner`. -/
theorem calculateWinner_order_independent (b : Board) (n : Nat)
    (hb : ReachableBoard b n) (ls : List (Fin 9 × Fin 9 × Fin 9))
    (hp : ls.Perm lines) :
    winnerLoop b ls = calculateWinner b := by
  have agree := reachable_winning_lines_agree b n hb
  rcases hres : calculateWinner b with _ | m
  · rw [winnerLoop_eq_none_iff]
    have hall := (winnerLoop_eq_none_iff b lines).mp hres
    intro l hl
    exact hall l (hp.mem_iff.mp hl)
  · obtain ⟨l, hl, hwin, hval⟩ := winnerLoop_some_mem b lines m hres
    rcases hres2 : winnerLoop b ls with _ | m2
    · exfalso
      have hall := (winnerLoop_eq_none_iff b ls).mp hres2
      have := hall l (hp.mem_iff.mpr hl)
      rw [hwin] at this
      cases this
    · obtain ⟨l2, hl2, hwin2, hval2⟩ := winnerLoop_some_mem b ls m2 hres2
      have heq := agree l hl l2 (hp.mem_iff.mp hl2) hwin hwin2
      rw [hval, hval2] at heq
      exact heq.symm

/-- Witness for claim C4: the board after one opening move, checked against
the reversed line list. -/
theorem calculateWinner_order_independent_witness :
    ReachableBoard boardAfterOneMove 1 ∧ lines.reverse.Perm lines ∧
    winnerLoop boardAfterOneMove lines.reverse = calculateWinner boardAfterOneMove := by
  have hr : ReachableBoard boardAfterOneMove 1 :=
    ReachableBoard.move emptyBoard 0 0 ReachableBoard.start rfl (by decide)
  exact ⟨hr, lines.reverse_perm,
    calculateWinner_order_independent boardAfterOneMove 1 hr lines.reverse lines.reverse_perm⟩

theorem currentSquares_eq_get (s : GameState) (hc : s.currentMove < s.history.length) :
    currentSquares s = s.history.get ⟨s.currentMove, hc⟩ := by
  rw [currentSquares, List.getD_eq_getElem s.history emptyBoard hc, List.get_eq_getElem]

theorem getLast?_take_get (l : List Board) (c : Nat) (hc : c < l.length) :
    (l.take (c + 1)).getLast? = some (l.get ⟨c, hc⟩) := by
  rw [List.getLast?_eq_getElem?]
  have hlen : (l.take (c + 1)).length = c + 1 := by
    rw [List.length_take]
    omega
  rw [hlen]
  simp only [Nat.add_sub_cancel]
  rw [List.getElem?_take]
  rw [if_pos (by omega : c < c + 1)]
  exact List.getElem?_eq_getElem hc

theorem gameReachable_historyInv (s : GameState) (hs : GameReachable s) :
    HistoryInv s := by
  induction hs with
  | start =>
    exact ⟨Nat.one_pos, List.chain'_singleton emptyBoard⟩
  | jump s k hs hk ih =>
    exact ⟨hk, ih.2⟩
  | click s i hs ih =>
    rcases hres : handleClick (xIsNext s) (currentSquares s) i with _ | b2
    · have hgc : gameClick s i = s := by
        simp [gameClick, hres]
      rw [hgc]
      exact ih
    · have hgc : gameClick s i = handlePlay s b2 := by
        simp [gameClick, hres]
      rw [hgc]
      obtain ⟨hcur, hchain⟩ := ih
      have hres2 := hres
      rw [handleClick] at hres2
      by_cases hcond : ((currentSquares s i).isSome || (calculateWinner (currentSquares s)).isSome) = true
      · rw [if_pos hcond] at hres2
        cases hres2
      · rw [if_neg hcond] at hres2
        have hb2 : b2 = setCell (currentSquares s) i (some (if xIsNext s then Mark.X else Mark.O)) :=
          (Option.some_inj.mp hres2).symm
        simp only [Bool.or_eq_true, not_or, Bool.not_eq_true] at hcond
        have hempty : currentSquares s i = none := by
          rw [← Option.not_isSome_iff_eq_none]
          simp [hcond.1]
        show HistoryInv ⟨s.history.take (s.currentMove + 1) ++ [b2],
          (s.history.take (s.currentMove + 1) ++ [b2]).length - 1⟩
        have hlen : (s.history.take (s.currentMove + 1)).length = s.currentMove + 1 := by
          rw [List.length_take]
          omega
        constructor
        · show (s.history.take (s.currentMove + 1) ++ [b2]).length - 1 <
            (s.history.take (s.currentMove + 1) ++ [b2]).length
          simp [hlen]
        · show List.Chain' OneMoveApart (s.history.take (s.currentMove + 1) ++ [b2])
          rw [List.chain'_append]
          have htp := List.take_prefix (s.currentMove + 1) s.history
          have hpre := List.Chain'.prefix hchain htp
          refine ⟨hpre, List.chain'_singleton b2, ?_⟩
          intro x hx y hy
          rw [getLast?_take_get s.history s.currentMove hcur] at hx
          simp only [List.head?_cons, Option.mem_def, Option.some_inj] at hx hy
          subst hx
          subst hy
          rw [← currentSquares_eq_get s hcur, hb2]
          exact ⟨i, (if xIsNext s then Mark.X else Mark.O), hempty,
            setCell_at (currentSquares s) i _,
            fun j hj => setCell_elsewhere (currentSquares s) i _ j hj⟩

/-- Claim C8: in every state reachable from the initial state by cell clicks
and in-range jumps, consecutive history entries differ in exactly one cell,
and in that cell an empty value becomes a mark (each appended board is a
one-cell extension of the board at the cursor it was played from). -/
theorem reachable_history_steps (s : GameState) (hs : GameReachable s)
    (j : Nat) (hj : j + 1 < s.history.length) :
    OneMoveApart (s.history.get ⟨j, Nat.lt_of_succ_lt hj⟩)
      (s.history.get ⟨j + 1, hj⟩) := by
  have hch := (gameReachable_historyInv s hs).2
  exact List.chain'_iff_get.mp hch j (by omega)

/-- Witness for claim C8: after one click on cell 0 from the initial state,
the two history entries are one move apart. -/
theorem reachable_history_steps_witness :
    GameReachable (gameClick initialGameState 0) ∧
    0 + 1 < (gameClick initialGameState 0).history.length ∧
    OneMoveApart
      ((gameClick initialGameState 0).history.get ⟨0, by decide⟩)
      ((gameClick initialGameState 0).history.get ⟨1, by decide⟩) := by
  have hr : GameReachable (gameClick initialGameState 0) :=
    GameReachable.click initialGameState 0 GameReachable.start
  exact ⟨hr, by decide,
    reachable_history_steps (gameClick initialGameState 0) hr 0 (by decide)⟩
